import Mathlib

/-!
Verification development for the action-destinations repository.

The development shallowly embeds the FQL subscription-language pipeline
(`packages/destination-subscriptions/src/parse-fql.ts`), the subscription
dispatcher (`Destination.onEvent` / `Destination.onSubscription` /
`Destination.getSubscriptions` / `Destination.getDestinationSettings`), and the
credential-test path (`Destination.testAuthentication` together with the
`/test-credentials` handler of `packages/server/src/ops/server.ts`).

JavaScript peculiarities that the source relies on are modelled explicitly:
a `tokens.shift()` on an empty array yields `undefined` and, where the source
merely discards the result, is modelled by `List.tail`; where the source
dereferences a property of a possibly-`undefined` value, the model returns an
explicit error carrying a TypeError-style message, because in JavaScript such a
dereference throws (and `parseFql` catches every thrown error).
-/

namespace ActionDestinations

/-! ## JavaScript string helpers

The embedded code uses a handful of JavaScript string operations
(`startsWith`-style regex anchors, `endsWith`, `slice`, `split('.')[0]`,
`replace` with anchored patterns).  They are modelled over the character list
of the string so that every definition reduces inside the kernel. -/

def listIsPrefix : List Char → List Char → Bool
  | [], _ => true
  | _ :: _, [] => false
  | a :: as, b :: bs => a == b && listIsPrefix as bs

/-- Model of JavaScript `s.startsWith(pat)` (also of a `/^pat/` regex test). -/
def jsStartsWith (s pat : String) : Bool :=
  listIsPrefix pat.data s.data

/-- Model of JavaScript `s.endsWith(pat)`. -/
def jsEndsWith (s pat : String) : Bool :=
  listIsPrefix pat.data.reverse s.data.reverse

/-- Model of JavaScript `s.slice(n)` for `n ≥ 0`. -/
def jsDrop (s : String) (n : Nat) : String :=
  ⟨s.data.drop n⟩

/-- Model of JavaScript `s.slice(0, -n)` for `n ≥ 0`. -/
def jsDropRight (s : String) (n : Nat) : String :=
  ⟨s.data.take (s.data.length - n)⟩

/-- Model of JavaScript `s.split('.')[0]`: the characters before the first
dot (the whole string when no dot occurs, `""` on the empty string). -/
def headSegment (s : String) : String :=
  ⟨s.data.takeWhile (fun c => !(c == '.'))⟩

/-! ## Token model (`@segment/fql` tokens as consumed by parse-fql.ts) -/

inductive TokenType where
  | ident
  | str
  | num
  | operator
  | conditional
  | dot
  | parenleft
  | parenright
  | comma
  | eos
deriving DecidableEq, Repr

structure Token where
  type : TokenType
  value : String
deriving DecidableEq, Repr

/-- The synthetic end-of-stream token (`{ type: TokenType.EOS, value: 'eos' }`
in parse-fql.ts line 219). -/
def eosToken : Token := ⟨.eos, "eos"⟩

/-! ## Lexer

Modelled from the spec: the FQL lexer is the external `@segment/fql` package
(its implementation is not under src/); §4.1 of the spec gives its contract.
It recognizes double-quoted string literals (the token value keeps the
surrounding quotes, which parse-fql.ts relies on in `getTokenValue` and in the
`endsWith('*"')` test), numeric literals, identifiers made of letters, digits
and underscore (a dot between identifiers is emitted as a separate `dot`
token, to be reassembled by the normalizer), the operators
`=`, `!=`, `>`, `<`, `>=`, `<=`, the conditionals `and`/`or`, the unary `!`,
parentheses, comma, and a final end-of-stream token; it fails on an
unterminated string or an unrecognized character. -/

def isIdentChar (c : Char) : Bool :=
  c.isAlphanum || c == '_'

/-- Consume a double-quoted string literal: the characters after the opening
quote are taken until the matching unescaped quote; the returned token value
keeps both quotes.  Fails on an unterminated literal. -/
def takeStringLit : List Char → Except String (List Char × List Char)
  | [] => .error "unterminated string literal"
  | '"' :: rest => .ok ([], rest)
  | '\\' :: c :: rest =>
      match takeStringLit rest with
      | .error e => .error e
      | .ok (body, rem) => .ok ('\\' :: c :: body, rem)
  | c :: rest =>
      match takeStringLit rest with
      | .error e => .error e
      | .ok (body, rem) => .ok (c :: body, rem)

def lexChars : Nat → List Char → Except String (List Token)
  | 0, _ => .error "lexer fuel exhausted"
  | _ + 1, [] => .ok [eosToken]
  | fuel + 1, c :: rest =>
    if c == ' ' || c == '\t' || c == '\n' || c == '\r' then
      lexChars fuel rest
    else if c == '(' then
      (lexChars fuel rest).map (⟨.parenleft, "("⟩ :: ·)
    else if c == ')' then
      (lexChars fuel rest).map (⟨.parenright, ")"⟩ :: ·)
    else if c == ',' then
      (lexChars fuel rest).map (⟨.comma, ","⟩ :: ·)
    else if c == '.' then
      (lexChars fuel rest).map (⟨.dot, "."⟩ :: ·)
    else if c == '"' then
      match takeStringLit rest with
      | .error e => .error e
      | .ok (body, rem) =>
          (lexChars fuel rem).map (⟨.str, ⟨'"' :: body ++ ['"']⟩⟩ :: ·)
    else if c == '!' then
      match rest with
      | '=' :: rest2 => (lexChars fuel rest2).map (⟨.operator, "!="⟩ :: ·)
      | _ => (lexChars fuel rest).map (⟨.operator, "!"⟩ :: ·)
    else if c == '=' then
      (lexChars fuel rest).map (⟨.operator, "="⟩ :: ·)
    else if c == '>' then
      match rest with
      | '=' :: rest2 => (lexChars fuel rest2).map (⟨.operator, ">="⟩ :: ·)
      | _ => (lexChars fuel rest).map (⟨.operator, ">"⟩ :: ·)
    else if c == '<' then
      match rest with
      | '=' :: rest2 => (lexChars fuel rest2).map (⟨.operator, "<="⟩ :: ·)
      | _ => (lexChars fuel rest).map (⟨.operator, "<"⟩ :: ·)
    else if c.isDigit then
      let digits := (c :: rest).takeWhile Char.isDigit
      let rem := (c :: rest).dropWhile Char.isDigit
      match rem with
      | '.' :: d :: rem2 =>
          if d.isDigit then
            let frac := (d :: rem2).takeWhile Char.isDigit
            let rem3 := (d :: rem2).dropWhile Char.isDigit
            (lexChars fuel rem3).map (⟨.num, ⟨digits ++ '.' :: frac⟩⟩ :: ·)
          else
            (lexChars fuel rem).map (⟨.num, ⟨digits⟩⟩ :: ·)
      | _ => (lexChars fuel rem).map (⟨.num, ⟨digits⟩⟩ :: ·)
    else if c.isAlpha || c == '_' then
      let word := (c :: rest).takeWhile isIdentChar
      let rem := (c :: rest).dropWhile isIdentChar
      let tok : Token :=
        if word == "and".data || word == "or".data then ⟨.conditional, ⟨word⟩⟩
        else ⟨.ident, ⟨word⟩⟩
      (lexChars fuel rem).map (tok :: ·)
    else
      .error "unrecognized character"

/-- Modelled from the spec: `lex(source).tokens` of the external
`@segment/fql` package (spec §4.1). -/
def lex (source : String) : Except String (List Token) :=
  lexChars (source.data.length + 1) source.data

/-! ## Normalizer (parse-fql.ts lines 241-267)

The source walks the array with an index.  When `tokens[index]` is an `ident`,
JavaScript evaluates `tokens[index + 1].type`; if that slot is past the end of
the array the dereference throws a TypeError (same for `tokens[index + 2]`
after an `ident`/`dot` pair).  Both throwing paths are modelled as explicit
errors; on every stream produced by `lex` they are unreachable because the
stream ends with a non-ident `eos` token. -/

def typeErrorUndefined : String :=
  "TypeError: Cannot read properties of undefined"

def normalizeAux : Nat → List Token → Except String (List Token)
  | 0, _ => .error "normalizer fuel exhausted"
  | _ + 1, [] => .ok []
  | fuel + 1, [t] =>
      -- one token left: when it is an ident, `tokens[index + 1].type` throws;
      -- otherwise the token is pushed and the loop ends.
      if t.type = .ident then .error typeErrorUndefined
      else (normalizeAux fuel []).map (t :: ·)
  | fuel + 1, [t, t1] =>
      -- two tokens left: an ident followed by a dot makes
      -- `tokens[index + 2].type` throw; in every other case `t` is pushed and
      -- the scan continues at the next position.
      if t.type = .ident && t1.type = .dot then .error typeErrorUndefined
      else (normalizeAux fuel [t1]).map (t :: ·)
  | fuel + 1, t :: t1 :: t2 :: rest2 =>
      -- three or more tokens left: the `&&` mirrors the short-circuit
      -- conjunction of the source condition (lines 246-250).
      if t.type = .ident && t1.type = .dot && t2.type = .ident then
        (normalizeAux fuel rest2).map (⟨.ident, t.value ++ t1.value ++ t2.value⟩ :: ·)
      else (normalizeAux fuel (t1 :: t2 :: rest2)).map (t :: ·)

def normalize (tokens : List Token) : Except String (List Token) :=
  normalizeAux (tokens.length + 1) tokens

/-- The fuel argument of `normalizeAux` is irrelevant as long as it exceeds
the stream length, so `normalize` satisfies the recurrences of the source
loop. -/
theorem normalizeAux_fuel_irrelevant :
    ∀ f1 f2 ts, ts.length < f1 → ts.length < f2 →
      normalizeAux f1 ts = normalizeAux f2 ts := by
  intro f1
  induction f1 with
  | zero => intro f2 ts h1 _; omega
  | succ f1 ih =>
    intro f2 ts h1 h2
    match f2, ts with
    | 0, _ => omega
    | f2 + 1, [] => rfl
    | f2 + 1, [t] =>
        simp only [normalizeAux]
        split
        · rfl
        · rw [ih f2 [] (by simp at h1 ⊢; omega) (by simp at h2 ⊢; omega)]
    | f2 + 1, [t, t1] =>
        simp only [normalizeAux]
        split
        · rfl
        · rw [ih f2 [t1] (by simp at h1 ⊢; omega) (by simp at h2 ⊢; omega)]
    | f2 + 1, t :: t1 :: t2 :: rest2 =>
        simp only [normalizeAux]
        split
        · rw [ih f2 rest2 (by simp at h1 ⊢; omega) (by simp at h2 ⊢; omega)]
        · rw [ih f2 (t1 :: t2 :: rest2) (by simp at h1 ⊢; omega) (by simp at h2 ⊢; omega)]

/-- A stream contains three consecutive tokens of types `ident`, `dot`,
`ident` somewhere. -/
def hasIdentDotIdentTriple : List Token → Bool
  | t0 :: t1 :: t2 :: rest =>
      (t0.type = .ident && t1.type = .dot && t2.type = .ident)
        || hasIdentDotIdentTriple (t1 :: t2 :: rest)
  | _ => false

/-! ## Condition AST (types.ts as used by parse-fql.ts)

`getTokenValue` returns `string | number | boolean`; a numeric token keeps its
literal text in this model (the claims under verification never exercise
numeric tokens, so JavaScript float re-rendering is not modelled).  Operators
are kept as raw strings because the source casts the operator token value with
`as Operator` without checking it.  A `GroupCondition` child can be the
JavaScript value `undefined` (parse-fql.ts pushes the result of a recursive
`parse` call, which is `undefined` when the sub-scope produced no node), so
children are `Option Condition`. -/

inductive TokenValue where
  | str (s : String)
  | num (raw : String)
  | bool (b : Bool)
deriving DecidableEq, Repr

inductive Condition where
  | event (operator : String) (value : String)
  | eventType (operator : String) (value : String)
  | eventProperty (name : String) (operator : String) (value : Option TokenValue)
  | group (operator : String) (children : List (Option Condition))

/-- Strip the surrounding quotes of a string token value:
`value.replace(/^"/, '').replace(/"$/, '')` (parse-fql.ts line 19). -/
def stripQuotes (s : String) : String :=
  let s1 := if jsStartsWith s "\"" then jsDrop s 1 else s
  if jsEndsWith s1 "\"" then jsDropRight s1 1 else s1

/-- parse-fql.ts lines 17-31 (`getTokenValue`). -/
def getTokenValue (token : Token) : TokenValue :=
  match token.type with
  | .str => .str (stripQuotes token.value)
  | .num => .num token.value
  | .ident =>
      if token.value == "true" || token.value == "false" then
        .bool (token.value == "true")
      else .str token.value
  | _ => .str token.value

/-- JavaScript `String(...)` applied to a `getTokenValue` result. -/
def tokenValueToString : TokenValue → String
  | .str s => s
  | .num raw => raw
  | .bool b => if b then "true" else "false"

/-- parse-fql.ts lines 33-35 (`isFqlFunction`). -/
def isFqlFunction (token : Token) : Bool :=
  token.type = .ident && (token.value == "contains" || token.value == "match")

/-- The `/^(properties|traits)/` regex test of parse-fql.ts lines 73 and 124. -/
def hasPropsOrTraitsHead (s : String) : Bool :=
  jsStartsWith s "properties" || jsStartsWith s "traits"

/-- The `value.replace(/^(properties|traits)\./, '')` rewrite of
parse-fql.ts lines 76, 127, 174, 183 and 189. -/
def stripPathQualifier (s : String) : String :=
  if jsStartsWith s "properties." then jsDrop s 11
  else if jsStartsWith s "traits." then jsDrop s 7
  else s

/-- The nodes pushed by the two `if` statements of the `contains` branch
(parse-fql.ts lines 65-80): one for a plain `event` first argument, one for a
`properties`/`traits` first argument, in this order (the two key tests never
both hold, but the source checks both and so does the model). -/
def containsNodes (negate : Bool) (nameToken valueToken : Token) : List Condition :=
  (if nameToken.value == "event" then
    [Condition.event (if negate then "not_contains" else "contains")
      (tokenValueToString (getTokenValue valueToken))]
  else [])
  ++
  (if hasPropsOrTraitsHead nameToken.value then
    [Condition.eventProperty (stripPathQualifier nameToken.value)
      (if negate then "not_contains" else "contains")
      (some (.str (tokenValueToString (getTokenValue valueToken))))]
  else [])

/-- The operator and trimmed value of the `match` branch (parse-fql.ts lines
105-114): a raw literal ending with `*"` selects the starts_with family and
drops the last character of the unquoted value, anything else selects the
ends_with family and drops the first character. -/
def matchOperatorValue (negate : Bool) (valueToken : Token) : String × String :=
  if jsEndsWith valueToken.value "*\"" then
    ((if negate then "not_starts_with" else "starts_with"),
     jsDropRight (tokenValueToString (getTokenValue valueToken)) 1)
  else
    ((if negate then "not_ends_with" else "ends_with"),
     jsDrop (tokenValueToString (getTokenValue valueToken)) 1)

/-- The nodes pushed by the two `if` statements of the `match` branch
(parse-fql.ts lines 116-131). -/
def matchNodes (negate : Bool) (nameToken valueToken : Token) : List Condition :=
  (if nameToken.value == "event" then
    [Condition.event (matchOperatorValue negate valueToken).1
      (matchOperatorValue negate valueToken).2]
  else [])
  ++
  (if hasPropsOrTraitsHead nameToken.value then
    [Condition.eventProperty (stripPathQualifier nameToken.value)
      (matchOperatorValue negate valueToken).1
      (some (.str (matchOperatorValue negate valueToken).2))]
  else [])

/-- parse-fql.ts lines 37-133 (`parseFqlFunction`).  The source mutates the
`nodes` accumulator and the token array; the model returns the list of pushed
nodes together with the remaining tokens.  A `tokens.shift()` whose result the
source discards (the skipped `(`, `,` and `)` tokens) is `List.tail`, which is
also a no-op on an exhausted stream, exactly like `shift` on `[]`. -/
def parseFqlFunction (name : String) (negate : Bool) (tokens : List Token) :
    Except String (List Condition × List Token) :=
  if name == "contains" then
    match tokens.tail with
    | [] => .error "contains() is missing a 1st argument"
    | nameToken :: ts2 =>
      match ts2.tail with
      | [] => .error "contains() is missing a 2nd argument"
      | valueToken :: ts4 => .ok (containsNodes negate nameToken valueToken, ts4.tail)
  else if name == "match" then
    match tokens.tail with
    | [] => .error "match() is missing a 1st argument"
    | nameToken :: ts2 =>
      match ts2.tail with
      | [] => .error "match() is missing a 2nd argument"
      | valueToken :: ts4 => .ok (matchNodes negate nameToken valueToken, ts4.tail)
  else
    .ok ([], tokens)

inductive ConditionKind where
  | event
  | eventType
  | eventProperty
deriving DecidableEq, Repr

/-- parse-fql.ts lines 10-15 (`tokenToConditionType`). -/
def tokenToConditionType (s : String) : Option ConditionKind :=
  if s == "type" then some .eventType
  else if s == "event" then some .event
  else if s == "properties" then some .eventProperty
  else if s == "traits" then some .eventProperty
  else none

/-- The leaf construction of parse-fql.ts lines 158-194, including the
null-comparison sugar for event properties. -/
def mkLeafCondition (kind : ConditionKind) (token operatorToken valueToken : Token) :
    Condition :=
  match kind with
  | .event => .event operatorToken.value (tokenValueToString (getTokenValue valueToken))
  | .eventType => .eventType operatorToken.value (tokenValueToString (getTokenValue valueToken))
  | .eventProperty =>
      if operatorToken.value == "!=" && valueToken.value == "null" then
        .eventProperty (stripPathQualifier token.value) "exists" none
      else if operatorToken.value == "=" && valueToken.value == "null" then
        .eventProperty (stripPathQualifier token.value) "not_exists" none
      else
        .eventProperty (stripPathQualifier token.value) operatorToken.value
          (some (getTokenValue valueToken))

/-- The inner while loop of the `parenleft` branch (parse-fql.ts lines
210-218): collect tokens up to the first `parenright`.  When the stream runs
out first, `groupToken!.type` dereferences `undefined` and throws. -/
def splitAtParenRight : List Token → Except String (List Token × List Token)
  | [] => .error typeErrorUndefined
  | t :: rest =>
    if t.type = .parenright then .ok ([], rest)
    else
      match splitAtParenRight rest with
      | .error e => .error e
      | .ok (group, rem) => .ok (t :: group, rem)

/-- Wrap the collected nodes of one scope (parse-fql.ts lines 230-238): more
than one node yields a `group`, otherwise the result is `nodes[0]`, which is
the JavaScript value `undefined` when the scope collected no node. -/
def wrapNodes (nodes : List (Option Condition)) (operator : String) : Option Condition :=
  if nodes.length > 1 then some (.group operator nodes) else nodes.headD none

/-- The leaf-condition branch of the parse loop (parse-fql.ts lines 141-195):
when the leading ident token routes to a condition kind, consume an operator
token and a value token (throwing when either is missing) and push one leaf
node. -/
def parseLeafStep (t : Token) (rest : List Token) (nodes : List (Option Condition)) :
    Except String (List (Option Condition) × List Token) :=
  match tokenToConditionType (headSegment t.value) with
  | none => .ok (nodes, rest)
  | some kind =>
    match rest with
    | [] => .error "Operator token is missing"
    | operatorToken :: rest2 =>
      match rest2 with
      | [] => .error "Value token is missing"
      | valueToken :: rest3 =>
          .ok (nodes ++ [some (mkLeafCondition kind t operatorToken valueToken)], rest3)

/-- The while loop of `parse` (parse-fql.ts lines 138-228) with the current
scope accumulator made explicit.  `fuel` decreases on every step and on the
recursive scope parse; `length + 1` fuel always suffices, and the claims only
inspect runs that return `.ok`.  Returns the collected nodes and the last
`conditional` token value seen (initially `'and'`). -/
def parseLoop : Nat → List Token → String → List (Option Condition) →
    Except String (List (Option Condition) × String)
  | 0, _, _, _ => .error "parser fuel exhausted"
  | _ + 1, [], operator, nodes => .ok (nodes, operator)
  | fuel + 1, t :: rest, operator, nodes =>
    if t.type = .eos then .ok (nodes, operator)
    else if t.type = .ident then
      -- leaf-condition branch (lines 141-195) followed by the function-call
      -- branch (lines 197-199); the two key sets are disjoint, but the source
      -- checks both on the same token and the model does the same.
      match parseLeafStep t rest nodes with
      | .error e => .error e
      | .ok (nodes1, rest1) =>
        if isFqlFunction t then
          match parseFqlFunction t.value false rest1 with
          | .error e => .error e
          | .ok (newNodes, rest2) => parseLoop fuel rest2 operator (nodes1 ++ newNodes.map some)
        else
          parseLoop fuel rest1 operator nodes1
    else if t.type = .operator && t.value == "!" then
      -- lines 202-208; `isFqlFunction(tokens[0])` dereferences `undefined`
      -- when the stream is exhausted.
      match rest with
      | [] => .error typeErrorUndefined
      | t0 :: rest0 =>
        if isFqlFunction t0 then
          match parseFqlFunction t0.value true rest0 with
          | .error e => .error e
          | .ok (newNodes, rest2) => parseLoop fuel rest2 operator (nodes ++ newNodes.map some)
        else
          parseLoop fuel (t0 :: rest0) operator nodes
    else if t.type = .parenleft then
      match splitAtParenRight rest with
      | .error e => .error e
      | .ok (groupTokens, restAfter) =>
        match parseLoop fuel (groupTokens ++ [eosToken]) "and" [] with
        | .error e => .error e
        | .ok (innerNodes, innerOp) =>
            parseLoop fuel restAfter operator (nodes ++ [wrapNodes innerNodes innerOp])
    else if t.type = .conditional then
      parseLoop fuel rest t.value nodes
    else
      parseLoop fuel rest operator nodes

/-- parse-fql.ts lines 135-239 (`parse`).  The result is `Option Condition`
because `nodes[0]` is `undefined` for an empty scope. -/
def parseTokens (tokens : List Token) : Except String (Option Condition) :=
  match parseLoop (tokens.length + 1) tokens "and" [] with
  | .error e => .error e
  | .ok (nodes, operator) => .ok (wrapNodes nodes operator)

/-- The `parse(normalize(lex(fql).tokens))` pipeline of parse-fql.ts line 271,
before the top-level group wrapping. -/
def sourceAst (fql : String) : Except String (Option Condition) :=
  match lex fql with
  | .error e => .error e
  | .ok tokens =>
    match normalize tokens with
    | .error e => .error e
    | .ok normalized => parseTokens normalized

/-- The result type of `parseFql`: either a condition AST or the
`ErrorCondition {error}` sentinel. -/
inductive ParseFqlResult where
  | ast (condition : Condition)
  | error (message : String)

/-- parse-fql.ts lines 269-289 (`parseFql`).  Every thrown error inside the
try block is caught and returned as the error variant; when `parse` returns
`undefined`, the `ast.type` access on line 273 throws a TypeError, which the
same catch turns into the error variant. -/
def parseFql (fql : String) : ParseFqlResult :=
  match sourceAst fql with
  | .error e => .error e
  | .ok none => .error typeErrorUndefined
  | .ok (some ast) =>
    match ast with
    | .group op children => .ast (.group op children)
    | other => .ast (.group "and" [some other])

/-! ## JSON values and the Destination dispatcher (src/unnamed/part_001)

Settings objects are JSON objects modelled as ordered key-value lists (object
keys are unique in the inputs under consideration; lookups take the first
occurrence, like JavaScript property access).  Numbers are integers in this
model; no claim under verification exercises non-integral settings values. -/

inductive JSON where
  | null
  | bool (b : Bool)
  | num (n : Int)
  | str (s : String)
  | arr (elems : List JSON)
  | obj (fields : List (String × JSON))

/-- JavaScript property lookup `o[k]`; `none` models `undefined`. -/
def lookupKey (fields : List (String × JSON)) (k : String) : Option JSON :=
  match fields with
  | [] => none
  | (k1, v) :: rest => if k1 == k then some v else lookupKey rest k

/-- JavaScript truthiness of a defined JSON value. -/
def jsTruthy : JSON → Bool
  | .null => false
  | .bool b => b
  | .num n => !(n == 0)
  | .str s => !(s == "")
  | .arr _ => true
  | .obj _ => true

/-- JavaScript truthiness of a possibly-`undefined` value. -/
def optTruthy : Option JSON → Bool
  | none => false
  | some v => jsTruthy v

/-- part_001 lines 245-261 (`Destination.getSubscriptions`).  `JSON.parse` is
a JavaScript builtin and is passed in as `jsonParse`; the claims under
verification only exercise the literal-array and singular-subscription
branches, which do not consult it. -/
def getSubscriptions (jsonParse : String → List JSON)
    (settings : List (String × JSON)) : List JSON :=
  let subscription := lookupKey settings "subscription"
  let subscriptions := lookupKey settings "subscriptions"
  if optTruthy subscription then [subscription.getD .null]
  else
    match subscriptions with
    | some (.str s) => jsonParse s
    | some (.arr elems) => elems
    | _ => []

/-- part_001 lines 263-266 (`Destination.getDestinationSettings`).  The rest
pattern `{ subcription, subscriptions, ...otherSettings }` removes exactly the
keys `subcription` (sic) and `subscriptions`, preserving the order of the
remaining properties. -/
def getDestinationSettings (settings : List (String × JSON)) :
    List (String × JSON) :=
  settings.filter (fun kv => !(kv.1 == "subcription") && !(kv.1 == "subscriptions"))

/-- One step result (`StepResult { output }`). -/
structure StepResult where
  output : JSON

/-- A subscription record as consumed by `onSubscription`: `subscribe` is kept
as a raw JSON value because the source guards on `typeof subscription.subscribe
!== 'string'` at runtime. -/
structure SubscriptionConfig where
  partnerAction : String
  subscribe : JSON
  mapping : Option JSON

/-- Reading the `Subscription` fields off a parsed JSON value, as the
`parsedSubscriptions as Subscription[]` cast lets arbitrary JSON through:
a missing or non-object field is the JavaScript value `undefined` (modelled
by `JSON.null` for `subscribe`, whose only use is the string test, and by the
slug `"undefined"` for `partnerAction`, which matches no action). -/
def toSubscriptionConfig : JSON → SubscriptionConfig
  | .obj fields =>
      ⟨(match lookupKey fields "partnerAction" with
        | some (.str s) => s
        | _ => "undefined"),
       (lookupKey fields "subscribe").getD .null,
       lookupKey fields "mapping"⟩
  | _ => ⟨"undefined", .null, none⟩

/-- The destination model for dispatch claims: the per-action `Action.execute`
pipeline is external to src/ (the `Action` class is imported from
`./action`), so each registered action is represented by the outcome of its
`execute` call — either a settled list of step results or a thrown error. -/
structure DestinationModel where
  name : String
  actions : List (String × Except String (List StepResult))

/-- part_001 lines 154-169 (`Destination.executeAction`): an unknown slug
throws `BadRequest` before any step runs. -/
def executeAction (d : DestinationModel) (actionSlug : String) :
    Except String (List StepResult) :=
  match lookupKey' d.actions actionSlug with
  | none => .error ("\"" ++ actionSlug ++ "\" is not a valid action")
  | some outcome => outcome
where
  lookupKey' : List (String × Except String (List StepResult)) → String →
      Option (Except String (List StepResult))
    | [], _ => none
    | (k, v) :: rest, k1 => if k == k1 then some v else lookupKey' rest k1

/-- The observer record passed to the `onComplete` callback (part_001 lines
208-220).  Wall-clock duration is not part of this deterministic model; the
claims under verification only concern the reported state, output and
forwarded settings. -/
structure SubscriptionStats where
  destination : String
  action : String
  state : String
  settings : List (String × JSON)
  output : Option (List StepResult)

/-- part_001 lines 171-222 (`Destination.onSubscription`).  The evaluator
`validate` comes from the external `@segment/fab5-subscriptions` package, so
it is passed in as `validateFn` (already applied to the fixed event); the
`parseFql` argument it receives is the one modelled above.  The `finally`
block always runs, so the observer record is always produced: `state` stays
`'pending'` unless the action executed successfully, and the callback maps
every non-`'done'` state to `'errored'`. -/
def onSubscription (d : DestinationModel) (validateFn : ParseFqlResult → Bool)
    (destinationSettings : List (String × JSON)) (sub : SubscriptionConfig) :
    SubscriptionStats × Except String (List StepResult) :=
  match sub.subscribe with
  | .str s =>
      if !(validateFn (parseFql s)) then
        let results := [⟨.str "not subscribed"⟩]
        (⟨d.name, sub.partnerAction, "errored", destinationSettings, some results⟩,
         .ok results)
      else
        match executeAction d sub.partnerAction with
        | .ok results =>
            (⟨d.name, sub.partnerAction, "done", destinationSettings, some results⟩,
             .ok results)
        | .error e =>
            (⟨d.name, sub.partnerAction, "errored", destinationSettings, none⟩,
             .error e)
  | _ =>
      let results := [⟨.str "invalid subscription"⟩]
      (⟨d.name, sub.partnerAction, "errored", destinationSettings, some results⟩,
       .ok results)

/-- `Promise.all` over already-determined outcomes: it fulfills with the list
of values when every promise fulfills and rejects as soon as one rejects (in
this synchronous model, with the first rejection in declaration order). -/
def promiseAll {α : Type} : List (Except String α) → Except String (List α)
  | [] => .ok []
  | x :: rest =>
    match x with
    | .error e => .error e
    | .ok a => (promiseAll rest).map (a :: ·)

/-- part_001 lines 228-243 (`Destination.onEvent`): build the subscription
list and the destination settings, run `onSubscription` for each subscription
concurrently, `await Promise.all`, and flatten.  The second component
collects the observer records produced by the (always-running) `finally`
blocks. -/
def onEvent (jsonParse : String → List JSON) (d : DestinationModel)
    (validateFn : ParseFqlResult → Bool) (settings : List (String × JSON)) :
    Except String (List StepResult) × List SubscriptionStats :=
  let subscriptions := (getSubscriptions jsonParse settings).map toSubscriptionConfig
  let destinationSettings := getDestinationSettings settings
  let runs := subscriptions.map (onSubscription d validateFn destinationSettings)
  ((promiseAll (runs.map (·.2))).map List.flatten, runs.map (·.1))

/-! ## Credential test (part_001 lines 109-138 and server.ts lines 109-154) -/

/-- Errors thrown along the credential-test path: the settings `Validate` step
throws an `AggregateAjvError` carrying one entry per offending field, every
other error carries only a message. -/
inductive JsError where
  | aggregateAjv (fields : List (String × String))
  | generic (message : String)
deriving DecidableEq, Repr

/-- part_001 lines 109-138 (`Destination.testAuthentication`).  The
`Validate('settings', schema)` step and the configured
`authentication.testAuthentication` request are external collaborators (the
`Validate` class lives outside src/), so each is passed in as its outcome:
`none` when not configured, otherwise the result of running it.  The
validation step runs before — and outside — the try/catch; only a failure of
the authentication request itself is replaced by
`new Error('Credentials are invalid')`. -/
def testAuthentication (settingsValidation : Option (Except JsError Unit))
    (authTest : Option (Except JsError Unit)) : Except JsError Unit :=
  match settingsValidation with
  | some (.error e) => .error e
  | _ =>
    match authTest with
    | none => .ok ()
    | some (.ok _) => .ok ()
    | some (.error _) => .error (.generic "Credentials are invalid")

/-- The JSON body sent by the `/test-credentials` handler. -/
structure TestCredentialsResponse where
  ok : Bool
  error : Option String
  fields : Option (List (String × String))
deriving DecidableEq, Repr

/-- The `fieldError.path.replace('$.', '')` rewrite of server.ts line 135 (the
paths produced by the validator always start with the `$.` root). -/
def stripRootPath (s : String) : String :=
  if jsStartsWith s "$." then jsDrop s 2 else s

/-- server.ts lines 126-152: the `/test-credentials` handler around the
`destinationDefinition.testAuthentication(settings)` call. -/
def testCredentialsHandler (outcome : Except JsError Unit) :
    TestCredentialsResponse :=
  match outcome with
  | .ok _ => ⟨true, none, none⟩
  | .error (.aggregateAjv fields) =>
      ⟨false, some "Credentials are invalid",
       some (fields.map (fun f => (stripRootPath f.1, f.2)))⟩
  | .error (.generic message) => ⟨false, some message, none⟩

/-! ## Parser claims -/

/-- Every `group` node of a condition AST has more than one child (children
are counted as the scope collected them, a JavaScript `undefined` child
included). -/
inductive GroupsOk : Condition → Prop where
  | event (o v : String) : GroupsOk (.event o v)
  | eventType (o v : String) : GroupsOk (.eventType o v)
  | eventProperty (n o : String) (v : Option TokenValue) :
      GroupsOk (.eventProperty n o v)
  | group (o : String) (children : List (Option Condition)) :
      1 < children.length →
      (∀ c ∈ children, ∀ x, c = some x → GroupsOk x) →
      GroupsOk (.group o children)

theorem containsNodes_leaves (negate : Bool) (nameToken valueToken : Token) :
    ∀ c ∈ containsNodes negate nameToken valueToken, GroupsOk c := by
  intro c hc
  unfold containsNodes at hc
  rcases List.mem_append.mp hc with hc | hc <;>
    (split at hc
     · simp only [List.mem_singleton] at hc
       subst hc
       constructor
     · exact absurd hc (by simp))

theorem matchNodes_leaves (negate : Bool) (nameToken valueToken : Token) :
    ∀ c ∈ matchNodes negate nameToken valueToken, GroupsOk c := by
  intro c hc
  unfold matchNodes at hc
  rcases List.mem_append.mp hc with hc | hc <;>
    (split at hc
     · simp only [List.mem_singleton] at hc
       subst hc
       constructor
     · exact absurd hc (by simp))

theorem parseFqlFunction_leaves (name : String) (negate : Bool)
    (tokens : List Token) (newNodes : List Condition) (rest : List Token)
    (h : parseFqlFunction name negate tokens = .ok (newNodes, rest)) :
    ∀ c ∈ newNodes, GroupsOk c := by
  unfold parseFqlFunction at h
  split at h
  · split at h
    · exact absurd h (by simp)
    · split at h
      · exact absurd h (by simp)
      · simp only [Except.ok.injEq, Prod.mk.injEq] at h
        obtain ⟨h3, -⟩ := h
        subst h3
        exact containsNodes_leaves _ _ _
  · split at h
    · split at h
      · exact absurd h (by simp)
      · split at h
        · exact absurd h (by simp)
        · simp only [Except.ok.injEq, Prod.mk.injEq] at h
          obtain ⟨h3, -⟩ := h
          subst h3
          exact matchNodes_leaves _ _ _
    · simp only [Except.ok.injEq, Prod.mk.injEq] at h
      obtain ⟨h3, -⟩ := h
      subst h3
      intro c hc
      exact absurd hc (by simp)

/-- An `Option Condition` (a node slot, possibly the JavaScript `undefined`)
whose condition, if any, satisfies `GroupsOk`. -/
def NodeOk (c : Option Condition) : Prop :=
  ∀ x, c = some x → GroupsOk x

theorem wrapNodes_ok (nodes : List (Option Condition)) (operator : String)
    (h : ∀ c ∈ nodes, NodeOk c) : NodeOk (wrapNodes nodes operator) := by
  unfold wrapNodes
  split
  · intro x hx
    cases hx
    exact GroupsOk.group _ _ (by omega) h
  · cases nodes with
    | nil => intro x hx; cases hx
    | cons a rest => exact h a (by simp)

theorem mkLeafCondition_groupsOk (kind : ConditionKind) (t opTok valTok : Token) :
    GroupsOk (mkLeafCondition kind t opTok valTok) := by
  cases kind <;> simp only [mkLeafCondition]
  · constructor
  · constructor
  · split
    · constructor
    · split <;> constructor

theorem parseLeafStep_preserves (t : Token) (rest : List Token)
    (nodes nodes1 : List (Option Condition)) (rest1 : List Token)
    (hn : ∀ c ∈ nodes, NodeOk c)
    (h : parseLeafStep t rest nodes = .ok (nodes1, rest1)) :
    ∀ c ∈ nodes1, NodeOk c := by
  unfold parseLeafStep at h
  split at h
  · simp only [Except.ok.injEq, Prod.mk.injEq] at h
    obtain ⟨h1, -⟩ := h
    subst h1; exact hn
  · split at h
    · exact absurd h (by simp)
    · split at h
      · exact absurd h (by simp)
      · simp only [Except.ok.injEq, Prod.mk.injEq] at h
        obtain ⟨h1, -⟩ := h
        subst h1
        intro c hc
        rcases List.mem_append.mp hc with hc | hc
        · exact hn c hc
        · simp only [List.mem_singleton] at hc
          subst hc
          intro x hx
          cases hx
          exact mkLeafCondition_groupsOk ..

theorem parseLoop_preserves_nodeOk :
    ∀ fuel tokens operator nodes nodes1 operator1,
      (∀ c ∈ nodes, NodeOk c) →
      parseLoop fuel tokens operator nodes = .ok (nodes1, operator1) →
      ∀ c ∈ nodes1, NodeOk c := by
  intro fuel
  induction fuel with
  | zero =>
      intro tokens operator nodes nodes1 operator1 _ h
      exact absurd h (by simp [parseLoop])
  | succ fuel ih =>
    intro tokens operator nodes nodes1 operator1 hn h
    match tokens with
    | [] =>
        simp only [parseLoop, Except.ok.injEq, Prod.mk.injEq] at h
        obtain ⟨h1, -⟩ := h
        subst h1; exact hn
    | t :: rest =>
      simp only [parseLoop] at h
      split at h
      · simp only [Except.ok.injEq, Prod.mk.injEq] at h
        obtain ⟨h1, -⟩ := h
        subst h1; exact hn
      · split at h
        -- ident branch
        · split at h
          · exact absurd h (by simp)
          · rename_i nodesA restA hstep
            have hA : ∀ c ∈ nodesA, NodeOk c :=
              parseLeafStep_preserves t rest nodes nodesA restA hn hstep
            split at h
            -- function-call branch after the leaf branch
            · split at h
              · exact absurd h (by simp)
              · rename_i newNodes rest2 hf
                refine ih rest2 operator (nodesA ++ newNodes.map some) nodes1 operator1 ?_ h
                intro c hc
                rcases List.mem_append.mp hc with hc | hc
                · exact hA c hc
                · simp only [List.mem_map] at hc
                  obtain ⟨leaf, hleaf, hc⟩ := hc
                  subst hc
                  intro x hx
                  cases hx
                  exact parseFqlFunction_leaves _ _ _ _ _ hf leaf hleaf
            · exact ih restA operator nodesA nodes1 operator1 hA h
        · split at h
          -- negated function-call branch
          · match hr : rest with
            | [] => exact absurd h (by simp)
            | t0 :: rest0 =>
              simp only [] at h
              split at h
              · split at h
                · exact absurd h (by simp)
                · rename_i newNodes rest2 hf
                  refine ih rest2 operator (nodes ++ newNodes.map some) nodes1 operator1 ?_ h
                  intro c hc
                  rcases List.mem_append.mp hc with hc | hc
                  · exact hn c hc
                  · simp only [List.mem_map] at hc
                    obtain ⟨leaf, hleaf, hc⟩ := hc
                    subst hc
                    intro x hx
                    cases hx
                    exact parseFqlFunction_leaves _ _ _ _ _ hf leaf hleaf
              · exact ih (t0 :: rest0) operator nodes nodes1 operator1 hn h
          · split at h
            -- parenthesized scope branch
            · split at h
              · exact absurd h (by simp)
              · rename_i groupTokens restAfter hsplit
                split at h
                · exact absurd h (by simp)
                · rename_i innerNodes innerOp hinner
                  refine ih restAfter operator (nodes ++ [wrapNodes innerNodes innerOp])
                    nodes1 operator1 ?_ h
                  intro c hc
                  rcases List.mem_append.mp hc with hc | hc
                  · exact hn c hc
                  · simp only [List.mem_singleton] at hc
                    subst hc
                    exact wrapNodes_ok innerNodes innerOp
                      (ih (groupTokens ++ [eosToken]) "and" [] innerNodes innerOp
                        (by intro c hc; exact absurd hc (by simp)) hinner)
            · split at h
              · exact ih rest t.value nodes nodes1 operator1 hn h
              · exact ih rest operator nodes nodes1 operator1 hn h

theorem parseTokens_groupsOk (tokens : List Token) (c : Condition)
    (h : parseTokens tokens = .ok (some c)) : GroupsOk c := by
  unfold parseTokens at h
  split at h
  · exact absurd h (by simp)
  · rename_i nodes operator hloop
    simp only [Except.ok.injEq] at h
    exact wrapNodes_ok nodes operator
      (parseLoop_preserves_nodeOk _ _ _ _ _ _ (by intro c hc; exact absurd hc (by simp)) hloop)
      c h

/-- Claim C3: evaluating the code at the failing input `contains(event)`.
The spec expects `parseFql` to return an error result for this malformed
source, but the `// Skip "," token` shift inside the contains branch consumes
the closing parenthesis, the end-of-stream token is taken as the second
argument, and `parseFql` returns a condition whose value is the text of the
eos token instead of an error. -/
theorem claim_C3_eval :
    parseFql "contains(event)"
      = .ast (.group "and" [some (.event "contains" "eos")]) := rfl

/-- Claim C4: a group condition is only constructed when a syntactic scope
collects more than one sibling node — every `group` node of a parse result
has more than one child — and the single-condition source
`(type="track")` parses to the unwrapped leaf condition, not to a group. -/
theorem claim_C4_group_only_for_siblings :
    (∀ (tokens : List Token) (c : Condition),
        parseTokens tokens = .ok (some c) → GroupsOk c)
    ∧ sourceAst "(type=\"track\")" = .ok (some (.eventType "=" "track")) :=
  ⟨fun tokens c h => parseTokens_groupsOk tokens c h, rfl⟩

/-- Witness for claim C4 at the token stream of `(type="track")`. -/
theorem claim_C4_witness : GroupsOk (Condition.eventType "=" "track") :=
  claim_C4_group_only_for_siblings.1
    [⟨.parenleft, "("⟩, ⟨.ident, "type"⟩, ⟨.operator, "="⟩, ⟨.str, "\"track\""⟩,
     ⟨.parenright, ")"⟩, eosToken]
    (.eventType "=" "track") rfl

/-- The token stream of the three-segment path `properties.a.b`. -/
def threeSegmentStream : List Token :=
  [⟨.ident, "properties"⟩, ⟨.dot, "."⟩, ⟨.ident, "a"⟩, ⟨.dot, "."⟩,
   ⟨.ident, "b"⟩, eosToken]

/-- Claim C5 counterexample: the normalizer does not rescan the merged token,
so the three-segment path `properties.a.b` normalizes to
`ident(properties.a), dot, ident(b), eos` — the output still contains a
consecutive `ident, dot, ident` triple and the path does not collapse to one
ident token, contradicting the claim. -/
theorem claim_C5_counterexample :
    normalize threeSegmentStream
      = .ok [⟨.ident, "properties.a"⟩, ⟨.dot, "."⟩, ⟨.ident, "b"⟩, eosToken]
    ∧ hasIdentDotIdentTriple
        [⟨.ident, "properties.a"⟩, ⟨.dot, "."⟩, ⟨.ident, "b"⟩, eosToken] = true :=
  ⟨rfl, rfl⟩

/-- Claim C5 amended: the normalizer makes a single left-to-right pass —
whenever the three tokens at the scan position are `ident, dot, ident` they
are replaced by one ident token concatenating the three values and the scan
resumes after the replaced triple without re-examining the merged token; a
three-segment path therefore merges only its first two segments. -/
theorem claim_C5_amended :
    (∀ (a d b : String) (rest : List Token),
        normalize (⟨.ident, a⟩ :: ⟨.dot, d⟩ :: ⟨.ident, b⟩ :: rest)
          = (normalize rest).map (⟨.ident, a ++ d ++ b⟩ :: ·))
    ∧ normalize threeSegmentStream
        = .ok [⟨.ident, "properties.a"⟩, ⟨.dot, "."⟩, ⟨.ident, "b"⟩, eosToken] := by
  constructor
  · intro a d b rest
    simp only [normalize, List.length_cons]
    rw [normalizeAux]
    simp only [decide_True, Bool.and_self, if_true]
    rw [normalizeAux_fuel_irrelevant (rest.length + 1 + 1 + 1) (rest.length + 1) rest
      (by omega) (by omega)]
  · rfl

/-- Witness for the amended claim C5 at a concrete merge instance. -/
theorem claim_C5_witness :
    normalize (⟨.ident, "a"⟩ :: ⟨.dot, "."⟩ :: ⟨.ident, "b"⟩ :: [eosToken])
      = (normalize [eosToken]).map (⟨.ident, "a.b"⟩ :: ·) :=
  claim_C5_amended.1 "a" "." "b" [eosToken]

/-- Claim C7: `properties.age != null` parses to the event-property condition
with name `age`, operator `exists` and no value; `properties.age = null`
parses to the same shape with operator `not_exists`. -/
theorem claim_C7_null_sugar :
    sourceAst "properties.age != null"
      = .ok (some (.eventProperty "age" "exists" none))
    ∧ sourceAst "properties.age = null"
      = .ok (some (.eventProperty "age" "not_exists" none)) :=
  ⟨rfl, rfl⟩

/-- Claim C8: `!match(event, "foo*")` parses to an event condition with
operator `not_starts_with` and value `foo` — the trailing `*` of the string
literal selects the starts_with family with the `*` trimmed, and the leading
`!` negates the operator. -/
theorem claim_C8_negated_match :
    sourceAst "!match(event, \"foo*\")"
      = .ok (some (.event "not_starts_with" "foo")) := rfl

/-- Claim C10: whenever the parse pipeline yields zero condition nodes (the
result is the JavaScript value `undefined`), `parseFql` returns the error
variant — the `ast.type` access throws and is caught — rather than an
undefined or match-all condition; the empty source and a source holding only
an `and` token are such cases. -/
theorem claim_C10_empty_parse_errors :
    (∀ fql : String, sourceAst fql = .ok none →
        parseFql fql = .error typeErrorUndefined)
    ∧ sourceAst "" = .ok none
    ∧ parseFql "" = .error typeErrorUndefined
    ∧ sourceAst "and" = .ok none
    ∧ parseFql "and" = .error typeErrorUndefined := by
  refine ⟨?_, rfl, rfl, rfl, rfl⟩
  intro fql h
  unfold parseFql
  rw [h]

/-- Witness for claim C10 at the empty source string. -/
theorem claim_C10_witness : parseFql "" = .error typeErrorUndefined :=
  claim_C10_empty_parse_errors.1 "" rfl

/-! ## Dispatcher claims -/

theorem exceptMap_ok_iff {α β : Type} (f : α → β) (x : Except String α) :
    (∃ y, x.map f = .ok y) ↔ ∃ a, x = .ok a := by
  cases x <;> simp [Except.map]

theorem promiseAll_ok_iff {α : Type} (xs : List (Except String α)) :
    (∃ ys, promiseAll xs = .ok ys) ↔ ∀ x ∈ xs, ∃ a, x = .ok a := by
  induction xs with
  | nil => simp [promiseAll]
  | cons x rest ih =>
    cases x with
    | error e => simp [promiseAll]
    | ok a =>
      simp only [promiseAll, List.mem_cons]
      constructor
      · rintro ⟨ys, hys⟩ y hy
        rcases hy with rfl | hy
        · exact ⟨a, rfl⟩
        · refine ih.mp ?_ y hy
          cases hrec : promiseAll rest with
          | error e => rw [hrec] at hys; exact absurd hys (by simp [Except.map])
          | ok zs => exact ⟨zs, rfl⟩
      · intro hall
        obtain ⟨zs, hzs⟩ := ih.mpr (fun y hy => hall y (Or.inr hy))
        exact ⟨a :: zs, by rw [hzs]; rfl⟩

def c1SubBad : JSON :=
  .obj [("partnerAction", .str "doesNotExist"), ("subscribe", .str "type = \"track\"")]

def c1SubGood : JSON :=
  .obj [("partnerAction", .str "good"), ("subscribe", .str "type = \"track\"")]

def c1Settings : List (String × JSON) :=
  [("subscriptions", .arr [c1SubBad, c1SubGood]), ("apiKey", .str "key")]

def c1Dest : DestinationModel :=
  ⟨"dest", [("good", .ok [⟨.str "sent"⟩])]⟩

/-- Claim C1 counterexample: two subscriptions, the first referencing an
unknown partnerAction slug and the second matching a registered action.
`onEvent` awaits the subscription promises with `Promise.all`, so the
BadRequest thrown for the unknown slug rejects the whole call and no result
list is returned — even though the sibling subscription run on its own
settles successfully.  This contradicts the claim that a failure in one
subscription does not prevent the sibling results from being returned. -/
theorem claim_C1_counterexample :
    (onEvent (fun _ => []) c1Dest (fun _ => true) c1Settings).1
      = .error "\"doesNotExist\" is not a valid action"
    ∧ (onSubscription c1Dest (fun _ => true) (getDestinationSettings c1Settings)
        (toSubscriptionConfig c1SubGood)).2 = .ok [⟨.str "sent"⟩] :=
  ⟨rfl, rfl⟩

/-- Claim C1 amended: `onEvent` returns the flattened results exactly when
every subscription chain settles successfully; a failure thrown in any one
subscription chain rejects `onEvent` (via `Promise.all`), discarding the
sibling results, as the source comment announces (failures abort the set of
subscriptions). -/
theorem claim_C1_amended (jsonParse : String → List JSON) (d : DestinationModel)
    (validateFn : ParseFqlResult → Bool) (settings : List (String × JSON)) :
    (∃ results, (onEvent jsonParse d validateFn settings).1 = .ok results)
      ↔ ∀ run ∈ ((getSubscriptions jsonParse settings).map toSubscriptionConfig).map
            (fun sub => (onSubscription d validateFn (getDestinationSettings settings) sub).2),
          ∃ stepResults, run = .ok stepResults := by
  have key : (onEvent jsonParse d validateFn settings).1
      = Except.map List.flatten
          (promiseAll (((getSubscriptions jsonParse settings).map toSubscriptionConfig).map
            (fun sub => (onSubscription d validateFn (getDestinationSettings settings) sub).2))) := by
    simp only [onEvent, List.map_map]
    rfl
  rw [key]
  exact (exceptMap_ok_iff _ _).trans (promiseAll_ok_iff _)

def c1GoodSettings : List (String × JSON) :=
  [("subscriptions", .arr [c1SubGood])]

/-- Witness for the amended claim C1: with a single well-formed subscription
every chain succeeds, so `onEvent` fulfills with a result list. -/
theorem claim_C1_amended_witness :
    ∃ results, (onEvent (fun _ => []) c1Dest (fun _ => true) c1GoodSettings).1
      = .ok results := by
  apply (claim_C1_amended (fun _ => []) c1Dest (fun _ => true) c1GoodSettings).mpr
  intro run hrun
  have hlist : ((getSubscriptions (fun _ => ([] : List JSON)) c1GoodSettings).map
        toSubscriptionConfig).map
        (fun sub => (onSubscription c1Dest (fun _ => true)
          (getDestinationSettings c1GoodSettings) sub).2)
      = [.ok [⟨.str "sent"⟩]] := rfl
  rw [hlist] at hrun
  simp only [List.mem_singleton] at hrun
  exact ⟨[⟨.str "sent"⟩], hrun⟩

def c6Subscription : JSON :=
  .obj [("partnerAction", .str "trackCustomer"), ("subscribe", .str "type = \"track\"")]

def c6Settings : List (String × JSON) :=
  [("subscription", c6Subscription), ("apiKey", .str "secret")]

/-- Claim C6: evaluating the code at the failing input.  `getSubscriptions`
recognizes the singular `subscription` key as a subscription source, but
`getDestinationSettings` destructures the misspelled key `subcription`, so
the `subscription` key survives into the forwarded destination settings
unchanged — the claim that both subscription-bearing keys are removed fails
on this input. -/
theorem claim_C6_eval :
    getSubscriptions (fun _ => []) c6Settings = [c6Subscription]
    ∧ getDestinationSettings c6Settings = c6Settings
    ∧ lookupKey (getDestinationSettings c6Settings) "subscription"
        = some c6Subscription :=
  ⟨rfl, rfl, rfl⟩

/-- Claim C9: the observer record produced by the always-running `finally`
block reports either `done` or `errored`; it reports `done` exactly when the
`subscribe` value is a string, the parsed filter matched, and the action
executed without throwing; a non-matching filter or a non-string `subscribe`
value is reported as `errored`. -/
theorem claim_C9_observer_state (d : DestinationModel)
    (validateFn : ParseFqlResult → Bool)
    (destinationSettings : List (String × JSON)) (sub : SubscriptionConfig) :
    ((onSubscription d validateFn destinationSettings sub).1.state = "done"
      ∨ (onSubscription d validateFn destinationSettings sub).1.state = "errored")
    ∧ ((onSubscription d validateFn destinationSettings sub).1.state = "done"
        ↔ ∃ s results, sub.subscribe = .str s ∧ validateFn (parseFql s) = true
            ∧ executeAction d sub.partnerAction = .ok results)
    ∧ (∀ s, sub.subscribe = .str s → validateFn (parseFql s) = false →
        (onSubscription d validateFn destinationSettings sub).1.state = "errored")
    ∧ ((∀ s, sub.subscribe ≠ .str s) →
        (onSubscription d validateFn destinationSettings sub).1.state = "errored") := by
  have hne : ("errored" : String) ≠ "done" := by decide
  obtain ⟨pa, subscribe, mapping⟩ := sub
  match subscribe with
  | .str s =>
      simp only [onSubscription]
      by_cases hv : validateFn (parseFql s) = true
      · have hguard : ¬((!(validateFn (parseFql s))) = true) := by simp [hv]
        rw [if_neg hguard]
        cases he : executeAction d pa with
        | ok results =>
            refine ⟨Or.inl rfl, ?_, ?_, ?_⟩
            · exact ⟨fun _ => ⟨s, results, rfl, hv, rfl⟩, fun _ => rfl⟩
            · intro s1 hs1 hv1
              injection hs1 with h1
              subst h1
              simp [hv] at hv1
            · intro hno
              exact absurd rfl (hno s)
        | error e =>
            refine ⟨Or.inr rfl, ?_, ?_, ?_⟩
            · constructor
              · intro hdone
                exact absurd hdone hne
              · rintro ⟨s1, results, hs1, -, he1⟩
                simp at he1
            · intro s1 hs1 hv1
              injection hs1 with h1
              subst h1
              simp [hv] at hv1
            · intro hno
              exact absurd rfl (hno s)
      · have hvf : validateFn (parseFql s) = false := by
          cases hval : validateFn (parseFql s)
          · rfl
          · exact absurd hval hv
        have hguard : (!(validateFn (parseFql s))) = true := by simp [hvf]
        rw [if_pos hguard]
        refine ⟨Or.inr rfl, ?_, ?_, ?_⟩
        · constructor
          · intro hdone
            exact absurd hdone hne
          · rintro ⟨s1, results, hs1, hv1, -⟩
            injection hs1 with h1
            subst h1
            simp [hvf] at hv1
        · intro s1 hs1 hv1
          rfl
        · intro hno
          exact absurd rfl (hno s)
  | .null | .bool _ | .num _ | .arr _ | .obj _ =>
      simp only [onSubscription]
      refine ⟨Or.inr (by trivial), ?_, ?_, ?_⟩
      · constructor
        · intro hdone
          exact absurd hdone hne
        · rintro ⟨s1, results, hs1, -, -⟩
          exact JSON.noConfusion hs1
      · intro s1 hs1 hv1
        exact JSON.noConfusion hs1
      · intro hno
        trivial

def c9Dest : DestinationModel :=
  ⟨"dest", [("send", .ok [⟨.str "delivered"⟩])]⟩

def c9Sub : SubscriptionConfig :=
  ⟨"send", .str "type = \"track\"", none⟩

/-- Witness for claim C9: a string subscription whose filter matches and
whose action executes successfully is reported as done. -/
theorem claim_C9_witness :
    (onSubscription c9Dest (fun _ => true) [] c9Sub).1.state = "done" :=
  (claim_C9_observer_state c9Dest (fun _ => true) [] c9Sub).2.1.mpr
    ⟨"type = \"track\"", [⟨.str "delivered"⟩], rfl, rfl, rfl⟩

/-! ## Credential-test claims -/

def c2AjvError : JsError :=
  .aggregateAjv [("$.apiKey", "The root value is missing the required field apiKey.")]

/-- Claim C2 counterexample: a failing settings schema validation runs
outside the try/catch of `testAuthentication`, so the aggregate validation
error propagates unchanged instead of being normalized to the generic
`Credentials are invalid` error — contradicting the claim that any failure of
the credential-test path, including the schema-validation step, is
normalized. -/
theorem claim_C2_counterexample :
    testAuthentication (some (.error c2AjvError)) none = .error c2AjvError
    ∧ c2AjvError ≠ .generic "Credentials are invalid" :=
  ⟨rfl, by decide⟩

/-- Claim C2 amended: only a failure of the configured authentication test
request is replaced by the generic `Credentials are invalid` error; a failure
of the settings schema-validation step propagates as the original aggregate
error from `testAuthentication`, and the `/test-credentials` handler then
reports it as `Credentials are invalid` together with a field-by-field error
map, not discarding the underlying cause. -/
theorem claim_C2_amended :
    (∀ (settingsValidation authTest : Option (Except JsError Unit)) (e : JsError),
        (settingsValidation = none ∨ settingsValidation = some (.ok ())) →
        testAuthentication settingsValidation authTest = .error e →
        e = .generic "Credentials are invalid")
    ∧ (∀ (f : JsError) (authTest : Option (Except JsError Unit)),
        testAuthentication (some (.error f)) authTest = .error f)
    ∧ (∀ fields : List (String × String),
        testCredentialsHandler (.error (.aggregateAjv fields))
          = ⟨false, some "Credentials are invalid",
             some (fields.map (fun fieldError => (stripRootPath fieldError.1, fieldError.2)))⟩) := by
  refine ⟨?_, ?_, ?_⟩
  · intro settingsValidation authTest e hsv h
    rcases hsv with rfl | rfl <;>
      (cases authTest with
       | none => exact absurd h (by simp [testAuthentication])
       | some res =>
           cases res with
           | ok u => exact absurd h (by simp [testAuthentication])
           | error f =>
               simp only [testAuthentication, Except.error.injEq] at h
               exact h.symm)
  · intro f authTest
    rfl
  · intro fields
    rfl

/-- Witness for the amended claim C2: a rejected authentication request is
reported as the generic invalid-credentials error. -/
theorem claim_C2_amended_witness :
    JsError.generic "Credentials are invalid" = .generic "Credentials are invalid" :=
  claim_C2_amended.1 none (some (.error (.generic "Response code 401"))) _
    (Or.inl rfl) rfl

end ActionDestinations
